import Mathlib

/-!
# FaceLogix — verification of the face-recognition pipeline and attendance coordinator

A shallow embedding, in Lean 4, of the numeric and stateful kernels of the
FaceLogix repository:

* `face_service/app/pipeline/detector.py` — anchor generation, greedy NMS,
  post-processing of decoded detections;
* `face_service/app/pipeline/embedder.py` — L2 normalization of embeddings;
* `face_service/app/pipeline/quality.py` — quality scoring;
* `face_service/app/pipeline/liveness.py` — two-frame liveness classification;
* `backend/app/api/v1/attendance.py` — check-in endpoint and lateness status;
* `backend/app/services/attendance_service.py` — service-layer coordinator.

Python floats are modelled by `ℚ` where the code only compares, scales and
interpolates, and by `ℝ` where a Euclidean norm (a square root) is inherent.
Opaque library calls (ONNX inference, cv2 colour conversion / Laplacian,
SQL result sets) are modelled as parameters: each embedded function takes the
values those calls produce as explicit arguments and reproduces everything
the repository's own code does with them.
-/

namespace FaceLogix

/-! ## Stable sorting

`numpy.argsort` (modelled as a stable ascending sort, which insertion sort is)
and Python's stable `sorted` are both embedded through one parametrised
insertion sort.  `insertBy le a l` places `a` after every prefix element `b`
with `le b a`, so earlier elements with equal keys stay first. -/

def insertBy (le : α → α → Bool) (a : α) : List α → List α
  | [] => [a]
  | b :: l => if le b a then b :: insertBy le a l else a :: b :: l

/-- Stable sort: fold the input left to right, inserting into the accumulator. -/
def sortBy (le : α → α → Bool) (l : List α) : List α :=
  l.foldl (fun acc a => insertBy le a acc) []

/-! ## Detector: anchor generation

`FaceDetector._generate_anchors` (detector.py lines 68–100).  For each FPN
stride the grid is `height // stride` by `width // stride`; the cell loop is
`for y, x in product(range(grid_h), range(grid_w))` (row-major, `y` outer),
and each cell appends `NUM_ANCHORS = 2` copies of the centre
`((x + 0.5) * stride, (y + 0.5) * stride)`. -/

def FPN_STRIDES : List ℕ := [8, 16, 32]

def NUM_ANCHORS : ℕ := 2

/-- The anchors one stride contributes, in the order the Python loop emits
them. -/
def anchorsForStride (height width stride : ℕ) : List (ℚ × ℚ) :=
  (List.range (height / stride)).flatMap fun y =>
    (List.range (width / stride)).flatMap fun x =>
      List.replicate NUM_ANCHORS
        (((x : ℚ) + 1/2) * stride, ((y : ℚ) + 1/2) * stride)

/-- `_generate_anchors(height, width)`: strides in the order `[8, 16, 32]`. -/
def generateAnchors (height width : ℕ) : List (ℚ × ℚ) :=
  FPN_STRIDES.flatMap (anchorsForStride height width)

/-- The layout the 640×640 anchor list actually has: positions `0..12799` are
the stride-8 section (80×80 cells, two anchors per cell, row-major),
`12800..15999` the stride-16 section (40×40), `16000..16799` the stride-32
section (20×20); consecutive even/odd positions share one cell whose centre
is `((x + 0.5)·s, (y + 0.5)·s)`. -/
def expectedAnchor (i : ℕ) : ℚ × ℚ :=
  if i < 12800 then
    (((((i / 2) % 80 : ℕ) : ℚ) + 1/2) * 8, ((((i / 2) / 80 : ℕ) : ℚ) + 1/2) * 8)
  else if i < 16000 then
    (((((i - 12800) / 2 % 40 : ℕ) : ℚ) + 1/2) * 16,
     ((((i - 12800) / 2 / 40 : ℕ) : ℚ) + 1/2) * 16)
  else
    (((((i - 16000) / 2 % 20 : ℕ) : ℚ) + 1/2) * 32,
     ((((i - 16000) / 2 / 20 : ℕ) : ℚ) + 1/2) * 32)

/-! ## Detector: non-maximum suppression

`FaceDetector._nms` (detector.py lines 356–405).  The order is
`scores.argsort()[::-1]`: a stable ascending argsort, reversed — so equal
scores come out with the *larger* original index first.  The loop keeps the
head of the remaining order and drops every later index whose IoU with it
exceeds the threshold (`mask = iou <= iou_threshold` keeps the rest). -/

structure Box where
  x1 : ℚ
  y1 : ℚ
  x2 : ℚ
  y2 : ℚ
deriving DecidableEq

instance : Inhabited Box := ⟨⟨0, 0, 0, 0⟩⟩

/-- `areas = (x2 - x1) * (y2 - y1)` (detector.py line 378). -/
def area (b : Box) : ℚ := (b.x2 - b.x1) * (b.y2 - b.y1)

/-- `inter = w * h` with `w = max(0, xx2 - xx1)`, `h = max(0, yy2 - yy1)`
(detector.py lines 390–397). -/
def interArea (a b : Box) : ℚ :=
  max 0 (min a.x2 b.x2 - max a.x1 b.x1) * max 0 (min a.y2 b.y2 - max a.y1 b.y1)

/-- `iou = inter / (areas[i] + areas[order[1:]] - inter)` (line 399). -/
def iou (a b : Box) : ℚ := interArea a b / (area a + area b - interArea a b)

/-- `scores.argsort()`: indices of `scores` in stable ascending score order. -/
def argsortAsc (scores : List ℚ) : List ℕ :=
  sortBy (fun i j => decide (scores.getD i 0 ≤ scores.getD j 0))
    (List.range scores.length)

/-- `scores.argsort()[::-1]` (line 379). -/
def nmsOrder (scores : List ℚ) : List ℕ := (argsortAsc scores).reverse

/-- The `while order.size > 0` loop (lines 382–403), with the order-list
length as structural fuel (each pass strictly shrinks the list, so the fuel
never runs out). -/
def nmsLoop (boxes : List Box) (iouThr : ℚ) : ℕ → List ℕ → List ℕ
  | 0, _ => []
  | _ + 1, [] => []
  | fuel + 1, i :: rest =>
    i :: nmsLoop boxes iouThr fuel
      (rest.filter fun j =>
        iou (boxes.getD i default) (boxes.getD j default) ≤ iouThr)

/-- `FaceDetector._nms(bboxes, scores, iou_threshold)`: list of kept indices. -/
def nms (boxes : List Box) (scores : List ℚ) (iouThr : ℚ) : List ℕ :=
  nmsLoop boxes iouThr (nmsOrder scores).length (nmsOrder scores)

/-! ## Detector: post-processing and `detect`

`FaceDetector._postprocess` (detector.py lines 187–297) and
`FaceDetector.detect` (lines 102–134).  The nine raw model outputs are
opaque; the embedding starts from the decoded candidate list (box, score)
that lines 218–261 produce from them, and reproduces the score mask, NMS,
letterbox undo, `int()` truncation, clamping, degenerate-box skip, the
size/confidence filter, the stable descending sort and the `MAX_FACES`
cap. -/

/-- Python `int()` on a float: truncation toward zero. -/
def pyInt (q : ℚ) : ℤ := if q < 0 then ⌈q⌉ else ⌊q⌋

structure DetFace where
  x1 : ℤ
  y1 : ℤ
  x2 : ℤ
  y2 : ℤ
  conf : ℚ
deriving DecidableEq

instance : Inhabited DetFace := ⟨⟨0, 0, 0, 0, 0⟩⟩

/-- `max(0, min(v, bound))` (detector.py lines 277–280). -/
def clampCoord (v bound : ℤ) : ℤ := max 0 (min v bound)

/-- Lines 269–295: undo the letterbox, truncate, clamp, and skip boxes that
became degenerate (`x2 <= x1 or y2 <= y1`). -/
def mapBoxFace (scale : ℚ) (padw padh : ℤ) (W H : ℤ) (b : Box) (s : ℚ) :
    Option DetFace :=
  let x1 := clampCoord (pyInt ((b.x1 - padw) / scale)) W
  let y1 := clampCoord (pyInt ((b.y1 - padh) / scale)) H
  let x2 := clampCoord (pyInt ((b.x2 - padw) / scale)) W
  let y2 := clampCoord (pyInt ((b.y2 - padh) / scale)) H
  if x2 ≤ x1 ∨ y2 ≤ y1 then none
  else some ⟨x1, y1, x2, y2, s⟩

/-- `_postprocess` on the decoded candidates: score mask (strict `>`,
line 244), NMS at threshold 0.4 (line 264), then the per-index mapping. -/
def postprocess (thr scale : ℚ) (padw padh W H : ℤ)
    (cands : List (Box × ℚ)) : List DetFace :=
  let kept := cands.filter fun c => decide (thr < c.2)
  let keep := nms (kept.map Prod.fst) (kept.map Prod.snd) (2/5)
  keep.filterMap fun i =>
    mapBoxFace scale padw padh W H ((kept.map Prod.fst).getD i default)
      ((kept.map Prod.snd).getD i 0)

/-- `detect` (lines 102–134): post-process, filter by confidence (`>=`) and
minimum face size, sort by confidence descending (stable), cap at
`MAX_FACES`. -/
def detect (thr : ℚ) (minFaceSize : ℤ) (maxFaces : ℕ) (scale : ℚ)
    (padw padh W H : ℤ) (cands : List (Box × ℚ)) : List DetFace :=
  let faces := postprocess thr scale padw padh W H cands
  let faces := faces.filter fun f =>
    decide (thr ≤ f.conf) && decide (minFaceSize ≤ min (f.x2 - f.x1) (f.y2 - f.y1))
  (sortBy (fun a b => decide (b.conf ≤ a.conf)) faces).take maxFaces

/-! ## Embedder

`FaceEmbedder.generate` (embedder.py lines 36–58) and `generate_batch`
(lines 60–90).  The model's raw 512-dimensional output is a parameter; the
embedding covers the normalization the code performs on it.  `generate`
divides by the norm under `if norm > 0`; `generate_batch` divides each row
by `np.maximum(norm, 1e-10)`. -/

/-- `np.linalg.norm` of a 512-vector. -/
noncomputable def l2norm (v : Fin 512 → ℝ) : ℝ := Real.sqrt (∑ i, v i ^ 2)

/-- `generate`: L2-normalize, guarded by `if norm > 0` (lines 54–56). -/
noncomputable def generate (raw : Fin 512 → ℝ) : Fin 512 → ℝ :=
  if 0 < l2norm raw then fun i => raw i / l2norm raw else raw

/-- One row of `generate_batch`: divide by `max(norm, 1e-10)` (lines 86–88). -/
noncomputable def batchNormalizeRow (raw : Fin 512 → ℝ) : Fin 512 → ℝ :=
  fun i => raw i / max (l2norm raw) (1 / 10 ^ 10)

/-- `generate_batch` on the stacked raw model outputs. -/
noncomputable def generateBatch (rows : List (Fin 512 → ℝ)) : List (Fin 512 → ℝ) :=
  rows.map batchNormalizeRow

/-! ## Quality assessment

`QualityAssessor` (quality.py).  The cv2-derived scalars — mean gray level of
the crop and Laplacian variance — are parameters `mu` and `lap`; everything
the Python does with them is reproduced.  The landmark geometry of
`_assess_angle` needs a Euclidean distance, so it lives in `ℝ`. -/

/-- `_assess_brightness` as a function of `mean_brightness` (lines 116–129). -/
def assessBrightness (mu : ℚ) : ℚ :=
  if 80 ≤ mu ∧ mu ≤ 180 then 1
  else if mu < 40 ∨ 220 < mu then 0.2
  else if mu < 80 then 0.2 + 0.8 * (mu - 40) / 40
  else 0.2 + 0.8 * (220 - mu) / 40

/-- `_assess_sharpness` as a function of `laplacian_var` (lines 144–153). -/
def assessSharpness (lap : ℚ) : ℚ :=
  if 500 < lap then 1
  else if 100 < lap then 0.5 + 0.5 * (lap - 100) / 400
  else max 0 (lap / 200)

/-- The score branch of `_assess_size` on `face_size = min(w, h)`
(lines 179–186). -/
def faceSizeScore (s : ℤ) : ℚ :=
  if 200 ≤ s then 1
  else if 100 ≤ s then 0.5 + 0.5 * ((s : ℚ) - 100) / 100
  else if 50 ≤ s then 0.2 + 0.3 * ((s : ℚ) - 50) / 50
  else max 0 ((s : ℚ) / 50 * 0.2)

/-- `_assess_size(bbox, image_shape)` (lines 155–186; `image_shape` is not
used by the body). -/
def assessSize (x1 y1 x2 y2 : ℤ) : ℚ :=
  faceSizeScore (min (x2 - x1) (y2 - y1))

/-- The five detected landmarks, `[left_eye, right_eye, nose, left_mouth,
right_mouth]`. -/
structure Landmarks where
  leftEye : ℝ × ℝ
  rightEye : ℝ × ℝ
  nose : ℝ × ℝ
  leftMouth : ℝ × ℝ
  rightMouth : ℝ × ℝ

/-- `np.linalg.norm` of a 2-vector difference. -/
noncomputable def dist2 (p q : ℝ × ℝ) : ℝ := Real.sqrt ((q.1 - p.1) ^ 2 + (q.2 - p.2) ^ 2)

/-- `_assess_angle` (lines 188–225). -/
noncomputable def assessAngle (lm : Landmarks) : ℝ :=
  let eyeCenterX := (lm.leftEye.1 + lm.rightEye.1) / 2
  let eyeDistance := dist2 lm.leftEye lm.rightEye
  if eyeDistance < 1 then 0
  else
    let yawRatio := |lm.nose.1 - eyeCenterX| / (eyeDistance / 2)
    let yawScore := max 0 (1 - yawRatio)
    let eyeY := (lm.leftEye.2 + lm.rightEye.2) / 2
    let noseYOffset := lm.nose.2 - eyeY
    let expectedOffset := eyeDistance * 0.35
    let pitchRatio := |noseYOffset - expectedOffset| / max expectedOffset 1
    let pitchScore := max 0 (1 - pitchRatio)
    (yawScore + pitchScore) / 2

structure QualityScore where
  overall : ℝ
  brightness : ℝ
  sharpness : ℝ
  face_size : ℝ
  face_angle : ℝ

/-- `QualityAssessor.assess` (lines 46–101): clamp the crop, return all-zero
scores for a degenerate crop, otherwise assemble the four component scores
and the weighted overall `0.20/0.30/0.25/0.25`. -/
noncomputable def assess (W H : ℤ) (x1 y1 x2 y2 : ℤ) (mu lap : ℚ) (lm : Landmarks) :
    QualityScore :=
  let cx1 := max 0 x1
  let cy1 := max 0 y1
  let cx2 := min W x2
  let cy2 := min H y2
  if cy2 - cy1 < 2 ∨ cx2 - cx1 < 2 then ⟨0, 0, 0, 0, 0⟩
  else
    let b : ℝ := ((assessBrightness mu : ℚ) : ℝ)
    let s : ℝ := ((assessSharpness lap : ℚ) : ℝ)
    let fs : ℝ := ((assessSize x1 y1 x2 y2 : ℚ) : ℝ)
    let fa : ℝ := assessAngle lm
    ⟨b * 0.20 + s * 0.30 + fs * 0.25 + fa * 0.25, b, s, fs, fa⟩

/-! ## Liveness classification

`LivenessDetector.check_liveness` (liveness.py lines 102–141), given the two
scalars the earlier lines compute from the landmark pair: the normalized
`movement` and the vertical `eye_movement`. -/

structure LivenessResult where
  is_live : Bool
  confidence : ℚ
  reason : String
deriving DecidableEq

/-- `_calculate_confidence`'s movement component (lines 217–224). -/
def movementScore (movement : ℚ) : ℚ :=
  if 0.005 ≤ movement ∧ movement ≤ 0.08 then
    max 0 (1 - |movement - 0.03| / 0.05)
  else if 0.08 < movement then max 0 (0.5 - (movement - 0.08) / 0.14)
  else 0

/-- `_calculate_confidence` (lines 198–229). -/
def calcConfidence (movement eyeMovement : ℚ) : ℚ :=
  min (movementScore movement + min (eyeMovement * 10) 0.3) 1

/-- The classification part of `check_liveness` (lines 102–141), after both
frames produced a face. -/
def classifyLiveness (movement eyeMovement : ℚ) : LivenessResult :=
  if movement < 0.001 then
    ⟨false, 0.2, "No movement detected - possible photo attack"⟩
  else if 0.15 < movement then
    ⟨false, 0.3, "Excessive movement - please hold still"⟩
  else
    let confidence := calcConfidence movement eyeMovement
    if 0.7 ≤ confidence then
      ⟨true, confidence, "Natural movement patterns detected"⟩
    else if 0.5 ≤ confidence then
      ⟨false, confidence, "Insufficient movement variation - try again"⟩
    else
      ⟨false, confidence, "Movement patterns inconsistent with live subject"⟩

/-! ## Backend: attendance

`backend/app/api/v1/attendance.py` and
`backend/app/services/attendance_service.py`.  A timestamp is a calendar day
plus microseconds within the day, matching the only two operations the code
performs on `datetime`s here: `ts >= datetime.combine(date.today(),
time.min)` and comparison against a deadline built by `replace` on the same
day.  The attendance table is a list of rows; the pgvector search and the
face-service HTTP calls are opaque, so their results (`matches`, liveness,
embedding) are parameters. -/

structure Timestamp where
  day : ℕ
  usec : ℕ
deriving DecidableEq

/-- `datetime` comparison for timestamps. -/
def tsLe (a b : Timestamp) : Prop :=
  a.day < b.day ∨ (a.day = b.day ∧ a.usec ≤ b.usec)

instance (a b : Timestamp) : Decidable (tsLe a b) := by
  unfold tsLe
  infer_instance

/-- `datetime.combine(date.today(), time.min)` (attendance.py line 197). -/
def todayStart (now : Timestamp) : Timestamp := ⟨now.day, 0⟩

structure AttendanceRow where
  user_id : Option ℕ
  rowType : String
  status : String
  ts : Timestamp
deriving DecidableEq

/-- `calculate_check_in_status` (attendance.py lines 68–90).  `checkInEnd` is
the parsed `"HH:MM"` setting, `none` when parsing failed or the key is
missing (the `except` fallback to `9, 30`).  The deadline is `check_time`
with hour/minute replaced and second/microsecond zeroed, so the comparison
is on microseconds within the same day. -/
def calculate_check_in_status (checkInEnd : Option (ℕ × ℕ))
    (lateThresholdMinutes : ℤ) (check : Timestamp) : String :=
  let hm := checkInEnd.getD (9, 30)
  let deadline : ℤ := ((hm.1 * 60 + hm.2) * 60 * 1000000 : ℕ)
  if (check.usec : ℤ) ≤ deadline then "on_time"
  else if (check.usec : ℤ) ≤ deadline + lateThresholdMinutes * 60000000 then
    "late"
  else "late"

/-- The duplicate-check predicate of the `check_in` endpoint (attendance.py
lines 198–207): same `user_id`, `type = "check_in"`, `ts >= today_start`,
`status != "unknown_user"`. -/
def matchesDedup (uid : ℕ) (now : Timestamp) (r : AttendanceRow) : Prop :=
  r.user_id = some uid ∧ r.rowType = "check_in" ∧
    tsLe (todayStart now) r.ts ∧ r.status ≠ "unknown_user"

instance (uid : ℕ) (now : Timestamp) (r : AttendanceRow) :
    Decidable (matchesDedup uid now r) := by
  unfold matchesDedup
  infer_instance

/-- The `check_in` endpoint (attendance.py lines 93–257) after the face
service returned an embedding: `matchResult` is `matches[0]` of the pgvector
search (`None` when empty).  No match logs an `unknown_user` row without a
`user_id`; a match runs the duplicate query — `scalar_one_or_none` returns
the sole row (reject, nothing written), `None` (insert with the computed
status), or raises on several rows (HTTP 500, nothing written, modelled as
`"error"`). -/
def check_in (db : List AttendanceRow) (matchResult : Option (ℕ × ℚ))
    (checkInEnd : Option (ℕ × ℕ)) (lateThresholdMinutes : ℤ)
    (now : Timestamp) : List AttendanceRow × String :=
  match matchResult with
  | none =>
      (db ++ [⟨none, "check_in", "unknown_user", now⟩], "unknown_user")
  | some (uid, _score) =>
      match db.filter fun r => decide (matchesDedup uid now r) with
      | [] =>
          let st := calculate_check_in_status checkInEnd lateThresholdMinutes now
          (db ++ [⟨some uid, "check_in", st, now⟩], st)
      | [_] => (db, "already_checked_in")
      | _ => (db, "error")

/-- Rows counted by the daily-dedup invariant: `(user_id = u, type =
'check_in', status ≠ 'unknown_user', date(ts) = d)`. -/
def dailyPred (u d : ℕ) (r : AttendanceRow) : Prop :=
  r.user_id = some u ∧ r.rowType = "check_in" ∧
    r.status ≠ "unknown_user" ∧ r.ts.day = d

instance (u d : ℕ) (r : AttendanceRow) : Decidable (dailyPred u d r) := by
  unfold dailyPred
  infer_instance

/-- How many rows of the table fall under `dailyPred u d`. -/
def dailyCount (db : List AttendanceRow) (u : ℕ) (d : ℕ) : ℕ :=
  db.countP fun r => decide (dailyPred u d r)

/-- `AttendanceService._process_attendance` (attendance_service.py lines
86–226): liveness gate, embedding presence gate (`if not query_embedding`,
so an empty list is as falsy as a missing one), gallery match, then an
unconditional insert — there is no duplicate check on this path.  Statuses
are `"failed"`, `"unknown"`, `"success"`. -/
def process_attendance (db : List AttendanceRow) (action : String)
    (isLive : Bool) (queryEmbedding : List ℚ)
    (matchResult : Option (ℕ × ℚ)) (now : Timestamp) :
    List AttendanceRow × String :=
  if !isLive then (db ++ [⟨none, action, "failed", now⟩], "failed")
  else if queryEmbedding.isEmpty then
    (db ++ [⟨none, action, "failed", now⟩], "failed")
  else
    match matchResult with
    | none => (db ++ [⟨none, action, "unknown", now⟩], "unknown")
    | some (uid, _score) =>
        (db ++ [⟨some uid, action, "success", now⟩], "success")

/-- `AttendanceService.process_check_in` (lines 32–57). -/
def process_check_in (db : List AttendanceRow) (isLive : Bool)
    (queryEmbedding : List ℚ) (matchResult : Option (ℕ × ℚ))
    (now : Timestamp) : List AttendanceRow × String :=
  process_attendance db "check_in" isLive queryEmbedding matchResult now

/-! ## Theorems: sorting infrastructure -/

theorem mem_insertBy (le : α → α → Bool) (a : α) (l : List α) (x : α) :
    x ∈ insertBy le a l ↔ x = a ∨ x ∈ l := by
  induction l with
  | nil => simp [insertBy]
  | cons b t ih =>
    by_cases h : le b a
    · simp only [insertBy, if_pos h, List.mem_cons, ih]
      tauto
    · simp only [insertBy, if_neg h, List.mem_cons]

theorem mem_sortBy_aux (le : α → α → Bool) (l acc : List α) (x : α) :
    x ∈ l.foldl (fun acc a => insertBy le a acc) acc ↔ x ∈ l ∨ x ∈ acc := by
  induction l generalizing acc with
  | nil => simp
  | cons a t ih =>
    simp only [List.foldl_cons, ih, mem_insertBy, List.mem_cons]
    tauto

theorem mem_sortBy (le : α → α → Bool) (l : List α) (x : α) :
    x ∈ sortBy le l ↔ x ∈ l := by
  simp [sortBy, mem_sortBy_aux]

theorem pairwise_insertBy (le : α → α → Bool)
    (htot : ∀ a b, le a b ∨ le b a) (htrans : ∀ a b c, le a b → le b c → le a c)
    (a : α) (l : List α) (hl : l.Pairwise (fun x y => le x y = true)) :
    (insertBy le a l).Pairwise (fun x y => le x y = true) := by
  induction l with
  | nil => simp [insertBy]
  | cons b t ih =>
    rcases List.pairwise_cons.mp hl with ⟨hb, ht⟩
    by_cases h : le b a
    · simp only [insertBy, if_pos h]
      refine List.pairwise_cons.mpr ⟨?_, ih ht⟩
      intro x hx
      rcases (mem_insertBy le a t x).mp hx with rfl | hxt
      · exact h
      · exact hb x hxt
    · simp only [insertBy, if_neg h]
      refine List.pairwise_cons.mpr ⟨?_, hl⟩
      intro x hx
      rcases List.mem_cons.mp hx with rfl | hxt
      · rcases htot a x with hax | hxa
        · exact hax
        · exact absurd hxa h
      · have hab : le a b := by
          rcases htot a b with hab | hba
          · exact hab
          · exact absurd hba h
        exact htrans a b x hab (hb x hxt)

theorem pairwise_sortBy (le : α → α → Bool)
    (htot : ∀ a b, le a b ∨ le b a) (htrans : ∀ a b c, le a b → le b c → le a c)
    (l : List α) : (sortBy le l).Pairwise (fun x y => le x y = true) := by
  suffices h : ∀ acc : List α, acc.Pairwise (fun x y => le x y = true) →
      (l.foldl (fun acc a => insertBy le a acc) acc).Pairwise
        (fun x y => le x y = true) by
    exact h [] (by simp)
  induction l with
  | nil => intro acc hacc; simpa using hacc
  | cons a t ih =>
    intro acc hacc
    exact ih _ (pairwise_insertBy le htot htrans a acc hacc)

/-! ## Theorems: anchor generation -/

theorem length_anchorsForStride (height width stride : ℕ) :
    (anchorsForStride height width stride).length =
      (height / stride) * (width / stride) * NUM_ANCHORS := by
  simp [anchorsForStride, List.length_flatMap, Function.comp_def,
    List.map_const', mul_assoc]

theorem length_generateAnchors :
    (generateAnchors 640 640).length = 16800 := by
  simp [generateAnchors, FPN_STRIDES, List.length_flatMap,
    length_anchorsForStride, NUM_ANCHORS]

theorem length_flatMap_range_const (f : ℕ → List α) (b : ℕ)
    (hb : ∀ y, (f y).length = b) (n : ℕ) :
    ((List.range n).flatMap f).length = n * b := by
  simp [List.length_flatMap, Function.comp_def, hb, List.map_const', mul_comm]

/-- Position `i` of a `flatMap` over `List.range n` whose blocks all have
length `b` is position `i % b` of block `i / b`. -/
theorem getElem?_flatMap_range (f : ℕ → List α) (b : ℕ)
    (hb : ∀ y, (f y).length = b) :
    ∀ n i, i < n * b → ((List.range n).flatMap f)[i]? = (f (i / b))[i % b]? := by
  intro n
  induction n with
  | zero => intro i hi; simp at hi
  | succ n ih =>
    intro i hi
    have hlen : ((List.range n).flatMap f).length = n * b :=
      length_flatMap_range_const f b hb n
    rw [List.range_succ, List.flatMap_append, List.getElem?_append, hlen]
    by_cases hcase : i < n * b
    · rw [if_pos hcase]
      exact ih i hcase
    · rw [if_neg hcase]
      have h1 : n * b ≤ i := le_of_not_lt hcase
      have hdiv : i / b = n := Nat.div_eq_of_lt_le h1 hi
      have hmod : i % b = i - n * b := by
        have h := Nat.mod_add_div i b
        rw [hdiv, mul_comm] at h
        omega
      rw [hdiv, hmod]
      simp [List.flatMap_cons, List.flatMap_nil]

/-- A single stride section, position by position: index `i` holds the centre
of row-major cell `i / 2`. -/
theorem getElem?_anchorsForStride (h w s : ℕ) (i : ℕ)
    (hi : i < (h / s) * ((w / s) * 2)) :
    (anchorsForStride h w s)[i]? =
      some (((((i / 2) % (w / s) : ℕ) : ℚ) + 1/2) * s,
            ((((i / 2) / (w / s) : ℕ) : ℚ) + 1/2) * s) := by
  have hblock : ∀ y : ℕ,
      ((List.range (w / s)).flatMap fun x =>
        List.replicate NUM_ANCHORS
          (((x : ℚ) + 1/2) * s, ((y : ℚ) + 1/2) * s)).length = (w / s) * 2 := by
    intro y
    exact length_flatMap_range_const _ 2 (fun _ => by simp [NUM_ANCHORS]) _
  rw [anchorsForStride, getElem?_flatMap_range _ ((w / s) * 2) hblock _ i hi]
  have hmod : i % ((w / s) * 2) < (w / s) * 2 := by
    refine Nat.mod_lt _ ?_
    rcases Nat.eq_zero_or_pos ((w / s) * 2) with h0 | h0
    · rw [h0] at hi; omega
    · exact h0
  rw [getElem?_flatMap_range _ 2 (fun _ => by simp [NUM_ANCHORS])
        _ _ (by omega : i % ((w / s) * 2) < (w / s) * 2)]
  have h2 : i % ((w / s) * 2) % 2 < NUM_ANCHORS := by
    have := Nat.mod_lt (i % ((w / s) * 2)) (by omega : 0 < 2)
    simpa [NUM_ANCHORS] using this
  rw [List.getElem?_replicate, if_pos h2]
  have hx : i % ((w / s) * 2) / 2 = (i / 2) % (w / s) := by
    rw [mul_comm (w / s) 2, Nat.mod_mul_right_div_self]
  have hy : i / ((w / s) * 2) = (i / 2) / (w / s) := by
    rw [mul_comm, ← Nat.div_div_eq_div_mul]
  rw [hx, hy]

theorem generateAnchors_640_eq :
    generateAnchors 640 640 =
      anchorsForStride 640 640 8 ++
        (anchorsForStride 640 640 16 ++ anchorsForStride 640 640 32) := by
  simp [generateAnchors, FPN_STRIDES]

theorem getElem?_generateAnchors_640 (i : ℕ) (hi : i < 16800) :
    (generateAnchors 640 640)[i]? = some (expectedAnchor i) := by
  have h8 : (anchorsForStride 640 640 8).length = 12800 := by
    rw [length_anchorsForStride]; rfl
  have h16 : (anchorsForStride 640 640 16).length = 3200 := by
    rw [length_anchorsForStride]; rfl
  rw [generateAnchors_640_eq, List.getElem?_append, h8]
  by_cases hi8 : i < 12800
  · rw [if_pos hi8, getElem?_anchorsForStride 640 640 8 i (by norm_num; omega)]
    rw [expectedAnchor, if_pos hi8]
    norm_num
  · rw [if_neg hi8, List.getElem?_append, h16]
    by_cases hi16 : i < 16000
    · rw [if_pos (by omega), getElem?_anchorsForStride 640 640 16 (i - 12800)
        (by norm_num; omega)]
      rw [expectedAnchor, if_neg hi8, if_pos hi16]
      norm_num
    · rw [if_neg (by omega), getElem?_anchorsForStride 640 640 32 (i - 12800 - 3200)
        (by norm_num; omega)]
      rw [expectedAnchor, if_neg hi8, if_neg hi16]
      have : i - 12800 - 3200 = i - 16000 := by omega
      rw [this]
      norm_num

/-! ## Theorems: non-maximum suppression -/

theorem interArea_comm (a b : Box) : interArea a b = interArea b a := by
  simp [interArea, min_comm, max_comm]

theorem iou_comm (a b : Box) : iou a b = iou b a := by
  simp only [iou, interArea_comm a b]
  ring_nf

theorem mem_nmsLoop (boxes : List Box) (thr : ℚ) (fuel : ℕ) (l : List ℕ)
    (j : ℕ) (hj : j ∈ nmsLoop boxes thr fuel l) : j ∈ l := by
  induction fuel generalizing l with
  | zero => simp [nmsLoop] at hj
  | succ fuel ih =>
    cases l with
    | nil => simp [nmsLoop] at hj
    | cons i rest =>
      rw [nmsLoop] at hj
      rcases List.mem_cons.mp hj with rfl | hj'
      · exact List.mem_cons_self _ _
      · exact List.mem_cons_of_mem _ (List.mem_of_mem_filter (ih _ hj'))

theorem pairwise_nmsLoop (boxes : List Box) (thr : ℚ) (fuel : ℕ) (l : List ℕ) :
    (nmsLoop boxes thr fuel l).Pairwise
      (fun i j => iou (boxes.getD i default) (boxes.getD j default) ≤ thr) := by
  induction fuel generalizing l with
  | zero => simp [nmsLoop]
  | succ fuel ih =>
    cases l with
    | nil => simp [nmsLoop]
    | cons i rest =>
      rw [nmsLoop]
      refine List.pairwise_cons.mpr ⟨?_, ih _⟩
      intro j hj
      have := List.of_mem_filter (mem_nmsLoop boxes thr fuel _ j hj)
      exact of_decide_eq_true this

/-- Any two distinct indices kept by NMS bound each other's IoU by the
threshold. -/
theorem nms_no_overlap (boxes : List Box) (scores : List ℚ) (thr : ℚ)
    (i j : ℕ) (hi : i ∈ nms boxes scores thr) (hj : j ∈ nms boxes scores thr)
    (hne : i ≠ j) :
    iou (boxes.getD i default) (boxes.getD j default) ≤ thr := by
  have hp := pairwise_nmsLoop boxes thr (nmsOrder scores).length (nmsOrder scores)
  have hsymm : Symmetric
      (fun i j : ℕ => iou (boxes.getD i default) (boxes.getD j default) ≤ thr) := by
    intro a b hab
    rwa [iou_comm] at hab
  exact List.Pairwise.forall hsymm hp hi hj hne

theorem nmsOrder_pair (s0 s1 : ℚ) :
    nmsOrder [s0, s1] = if s0 ≤ s1 then [1, 0] else [0, 1] := by
  by_cases h : s0 ≤ s1 <;>
    simp [nmsOrder, argsortAsc, sortBy, insertBy, List.range_succ, h]

/-- On a two-box input whose IoU exceeds the threshold, exactly one index
survives: the strictly higher-scoring one, and on a score tie index `1`. -/
theorem nms_pair (b0 b1 : Box) (s0 s1 : ℚ) (hov : 2/5 < iou b0 b1) :
    (s0 < s1 → nms [b0, b1] [s0, s1] (2/5) = [1]) ∧
    (s1 < s0 → nms [b0, b1] [s0, s1] (2/5) = [0]) ∧
    (s0 = s1 → nms [b0, b1] [s0, s1] (2/5) = [1]) := by
  have hov01 : ¬ (iou b0 b1 ≤ 2/5) := not_le.mpr hov
  have hov10 : ¬ (iou b1 b0 ≤ 2/5) := by rwa [iou_comm]
  refine ⟨?_, ?_, ?_⟩
  · intro h
    rw [nms, nmsOrder_pair, if_pos h.le]
    simp [nmsLoop, List.getD, hov10]
  · intro h
    rw [nms, nmsOrder_pair, if_neg (not_le.mpr h)]
    simp [nmsLoop, List.getD, hov01]
  · intro h
    rw [nms, nmsOrder_pair, if_pos h.le]
    simp [nmsLoop, List.getD, hov10]

/-! ## Theorems: post-processing and `detect` -/

theorem mapBoxFace_shape (scale : ℚ) (padw padh W H : ℤ) (b : Box) (s : ℚ)
    (f : DetFace) (hf : mapBoxFace scale padw padh W H b s = some f)
    (hW : 0 ≤ W) (hH : 0 ≤ H) :
    0 ≤ f.x1 ∧ f.x1 < f.x2 ∧ f.x2 ≤ W ∧ 0 ≤ f.y1 ∧ f.y1 < f.y2 ∧ f.y2 ≤ H ∧
      f.conf = s := by
  rw [mapBoxFace] at hf
  by_cases hdeg : clampCoord (pyInt ((b.x2 - padw) / scale)) W ≤
      clampCoord (pyInt ((b.x1 - padw) / scale)) W ∨
      clampCoord (pyInt ((b.y2 - padh) / scale)) H ≤
      clampCoord (pyInt ((b.y1 - padh) / scale)) H
  · simp only [hdeg, if_true] at hf
    exact absurd hf (by simp)
  · simp only [hdeg, if_false, Option.some.injEq] at hf
    push_neg at hdeg
    subst hf
    refine ⟨le_max_left _ _, hdeg.1, ?_, le_max_left _ _, hdeg.2, ?_, rfl⟩
    · exact max_le hW (min_le_right _ _)
    · exact max_le hH (min_le_right _ _)

theorem mem_postprocess (thr scale : ℚ) (padw padh W H : ℤ)
    (cands : List (Box × ℚ)) (f : DetFace)
    (hf : f ∈ postprocess thr scale padw padh W H cands)
    (hW : 0 ≤ W) (hH : 0 ≤ H) :
    0 ≤ f.x1 ∧ f.x1 < f.x2 ∧ f.x2 ≤ W ∧ 0 ≤ f.y1 ∧ f.y1 < f.y2 ∧ f.y2 ≤ H := by
  rw [postprocess] at hf
  rcases List.mem_filterMap.mp hf with ⟨i, _, hmap⟩
  have h := mapBoxFace_shape _ _ _ _ _ _ _ _ hmap hW hH
  exact ⟨h.1, h.2.1, h.2.2.1, h.2.2.2.1, h.2.2.2.2.1, h.2.2.2.2.2.1⟩

/-- Claim C5.  Every `DetectedFace` returned by `detect` satisfies
`x1 < x2`, `y1 < y2`, bbox inside the image, `min(w, h) ≥ MIN_FACE_SIZE` and
`confidence ≥ DETECTION_THRESHOLD`; the list is sorted by confidence
descending and has at most `MAX_FACES` entries.  Stated for arbitrary
settings values and arbitrary decoded candidates. -/
theorem C5_detect_invariants (thr : ℚ) (minFaceSize : ℤ) (maxFaces : ℕ)
    (scale : ℚ) (padw padh W H : ℤ) (cands : List (Box × ℚ))
    (hW : 0 ≤ W) (hH : 0 ≤ H) :
    (∀ f ∈ detect thr minFaceSize maxFaces scale padw padh W H cands,
      0 ≤ f.x1 ∧ f.x1 < f.x2 ∧ f.x2 ≤ W ∧ 0 ≤ f.y1 ∧ f.y1 < f.y2 ∧ f.y2 ≤ H ∧
        minFaceSize ≤ min (f.x2 - f.x1) (f.y2 - f.y1) ∧ thr ≤ f.conf) ∧
    (detect thr minFaceSize maxFaces scale padw padh W H cands).Pairwise
      (fun a b => b.conf ≤ a.conf) ∧
    (detect thr minFaceSize maxFaces scale padw padh W H cands).length ≤
      maxFaces := by
  refine ⟨?_, ?_, ?_⟩
  · intro f hf
    rw [detect] at hf
    have hf1 := List.mem_of_mem_take hf
    have hf2 := (mem_sortBy _ _ f).mp hf1
    rcases List.mem_filter.mp hf2 with ⟨hpost, hcond⟩
    simp only [Bool.and_eq_true, decide_eq_true_eq] at hcond
    have hb := mem_postprocess thr scale padw padh W H cands f hpost hW hH
    exact ⟨hb.1, hb.2.1, hb.2.2.1, hb.2.2.2.1, hb.2.2.2.2.1, hb.2.2.2.2.2,
      hcond.2, hcond.1⟩
  · rw [detect]
    refine List.Pairwise.imp ?_
      (List.Pairwise.sublist (List.take_sublist _ _) (pairwise_sortBy _ ?_ ?_ _))
    · intro a b h
      exact of_decide_eq_true h
    · intro a b
      rcases le_total b.conf a.conf with h | h
      · exact Or.inl (decide_eq_true h)
      · exact Or.inr (decide_eq_true h)
    · intro a b c hab hbc
      exact decide_eq_true (le_trans (of_decide_eq_true hbc) (of_decide_eq_true hab))
  · rw [detect]
    exact List.length_take_le _ _

/-- Witness for the `detect` invariants: one decoded candidate box
`(0,0,100,100)` at score `9/10`, image 640×640, scale 1, no padding,
thresholds at their defaults (`0.5`, `50`, `10`). -/
theorem detect_example_eval :
    detect (1/2) 50 10 1 0 0 640 640 [(⟨0, 0, 100, 100⟩, 9/10)] =
      [⟨0, 0, 100, 100, 9/10⟩] := by
  have hkeep : nms [⟨0, 0, 100, 100⟩] [(9 : ℚ)/10] (2/5) = [0] := by
    norm_num [nms, nmsOrder, argsortAsc, sortBy, insertBy, nmsLoop]
  have hpost : postprocess (1/2) 1 0 0 640 640 [(⟨0, 0, 100, 100⟩, 9/10)] =
      [⟨0, 0, 100, 100, 9/10⟩] := by
    simp only [postprocess]
    norm_num [hkeep, mapBoxFace, clampCoord, pyInt, List.filterMap_cons]
  simp only [detect, hpost]
  norm_num [sortBy, insertBy]

theorem C5_detect_invariants_witness :
    (⟨0, 0, 100, 100, 9/10⟩ : DetFace) ∈
      detect (1/2) 50 10 1 0 0 640 640 [(⟨0, 0, 100, 100⟩, 9/10)] ∧
    (0 : ℤ) ≤ 0 ∧ (0 : ℤ) < 100 ∧ (100 : ℤ) ≤ 640 ∧
    (50 : ℤ) ≤ min (100 - 0) (100 - 0) ∧ (1/2 : ℚ) ≤ 9/10 ∧
    (detect (1/2) 50 10 1 0 0 640 640 [(⟨0, 0, 100, 100⟩, 9/10)]).length ≤ 10 := by
  have hmem : (⟨0, 0, 100, 100, 9/10⟩ : DetFace) ∈
      detect (1/2) 50 10 1 0 0 640 640 [(⟨0, 0, 100, 100⟩, 9/10)] := by
    rw [detect_example_eval]; simp
  have h := C5_detect_invariants (1/2) 50 10 1 0 0 640 640
    [(⟨0, 0, 100, 100⟩, 9/10)] (by norm_num) (by norm_num)
  have hf := h.1 ⟨0, 0, 100, 100, 9/10⟩ hmem
  exact ⟨hmem, hf.1, hf.2.1, hf.2.2.1, hf.2.2.2.2.2.2.1, hf.2.2.2.2.2.2.2, h.2.2⟩

/-- Counterexample to the claimed anchor total: the 640×640 anchor list has
16 800 entries (2·(80·80 + 40·40 + 20·20)), not 25 600. -/
theorem C3_count_counterexample :
    (generateAnchors 640 640).length ≠ 25600 := by
  rw [length_generateAnchors]
  decide

/-- Claim C3 (amended count).  For the 640×640 detector input, anchor
generation produces exactly 16 800 anchor centres, ordered stride-8 cells
first, then stride-16, then stride-32, each row-major grid cell contributing
its 2 anchors consecutively at centre `((x + 0.5)·s, (y + 0.5)·s)` — the
layout `expectedAnchor` spells out position by position. -/
theorem C3_anchor_layout :
    (generateAnchors 640 640).length = 16800 ∧
    ∀ i : ℕ, i < 16800 →
      (generateAnchors 640 640)[i]? = some (expectedAnchor i) :=
  ⟨length_generateAnchors, getElem?_generateAnchors_640⟩

theorem C3_anchor_layout_witness :
    (generateAnchors 640 640).length = 16800 ∧
    (generateAnchors 640 640)[12802]? = some ((24 : ℚ), (8 : ℚ)) := by
  refine ⟨C3_anchor_layout.1, ?_⟩
  rw [C3_anchor_layout.2 12802 (by norm_num)]
  rw [expectedAnchor]
  norm_num

/-- Counterexample to the claimed stable tie-break: two identical boxes with
equal scores; the survivor is index 1 (the reversed stable argsort puts the
larger index first), not index 0 as a stable-by-original-index rule would
produce. -/
theorem C4_tie_counterexample :
    2/5 < iou ⟨0, 0, 10, 10⟩ ⟨0, 0, 10, 10⟩ ∧
    nms [⟨0, 0, 10, 10⟩, ⟨0, 0, 10, 10⟩] [9/10, 9/10] (2/5) ≠ [0] := by
  have hiou : iou ⟨0, 0, 10, 10⟩ ⟨0, 0, 10, 10⟩ = 1 := by
    norm_num [iou, interArea, area]
  have hrun : nms [⟨0, 0, 10, 10⟩, ⟨0, 0, 10, 10⟩] [9/10, 9/10] (2/5) = [1] := by
    rw [nms, nmsOrder_pair, if_pos le_rfl]
    norm_num [nmsLoop, List.getD, List.filter_cons, hiou]
  rw [hrun]
  refine ⟨by rw [hiou]; norm_num, by simp⟩

/-- Claim C4 (amended tie-break).  NMS is greedy — repeatedly select the
highest-scoring remaining box, score ties resolved toward the larger
original index, and suppress every remaining box whose IoU with it exceeds
0.4 — so any two surviving boxes have IoU ≤ 0.4, and of exactly two input
boxes with IoU > 0.4 only the higher-scoring one survives (the later one on
a tie). -/
theorem C4_nms_greedy :
    (∀ (boxes : List Box) (scores : List ℚ) (i j : ℕ),
      i ∈ nms boxes scores (2/5) → j ∈ nms boxes scores (2/5) → i ≠ j →
        iou (boxes.getD i default) (boxes.getD j default) ≤ 2/5) ∧
    (∀ (b0 b1 : Box) (s0 s1 : ℚ), 2/5 < iou b0 b1 →
      (s0 < s1 → nms [b0, b1] [s0, s1] (2/5) = [1]) ∧
      (s1 < s0 → nms [b0, b1] [s0, s1] (2/5) = [0]) ∧
      (s0 = s1 → nms [b0, b1] [s0, s1] (2/5) = [1])) :=
  ⟨fun boxes scores i j hi hj hne => nms_no_overlap boxes scores (2/5) i j hi hj hne,
   fun b0 b1 s0 s1 hov => nms_pair b0 b1 s0 s1 hov⟩

theorem C4_nms_greedy_witness :
    iou (([⟨0, 0, 10, 10⟩, ⟨20, 20, 30, 30⟩] : List Box).getD 0 default)
        ([⟨0, 0, 10, 10⟩, ⟨20, 20, 30, 30⟩].getD 1 default) ≤ 2/5 ∧
    nms [⟨0, 0, 10, 10⟩, ⟨0, 2, 10, 12⟩] [4/5, 9/10] (2/5) = [1] := by
  constructor
  · have hkeep : nms [⟨0, 0, 10, 10⟩, ⟨20, 20, 30, 30⟩] [(9 : ℚ)/10, 4/5] (2/5) =
        [0, 1] := by
      have hiou : iou ⟨0, 0, 10, 10⟩ ⟨20, 20, 30, 30⟩ = 0 := by
        norm_num [iou, interArea, area]
      rw [nms, nmsOrder_pair, if_neg (by norm_num)]
      norm_num [nmsLoop, List.getD, List.filter_cons, hiou]
    exact C4_nms_greedy.1 [⟨0, 0, 10, 10⟩, ⟨20, 20, 30, 30⟩] [9/10, 4/5] 0 1
      (by rw [hkeep]; simp) (by rw [hkeep]; simp) (by norm_num)
  · have hov : 2/5 < iou ⟨0, 0, 10, 10⟩ ⟨0, 2, 10, 12⟩ := by
      norm_num [iou, interArea, area]
    exact (C4_nms_greedy.2 ⟨0, 0, 10, 10⟩ ⟨0, 2, 10, 12⟩ (4/5) (9/10) hov).1
      (by norm_num)

/-! ## Theorems: quality component bounds and monotonicity -/

theorem assessBrightness_nonneg (mu : ℚ) : 0 ≤ assessBrightness mu := by
  unfold assessBrightness
  split_ifs with h1 h2 h3
  · norm_num
  · norm_num
  · push_neg at h2
    linarith [h2.1]
  · push_neg at h1 h2 h3
    linarith [h2.2]

theorem assessBrightness_le_one (mu : ℚ) : assessBrightness mu ≤ 1 := by
  unfold assessBrightness
  split_ifs with h1 h2 h3
  · norm_num
  · norm_num
  · linarith
  · push_neg at h1 h2 h3
    have h180 : 180 < mu := h1 h3
    linarith

theorem assessSharpness_nonneg (v : ℚ) : 0 ≤ assessSharpness v := by
  unfold assessSharpness
  split_ifs with h1 h2
  · norm_num
  · linarith
  · exact le_max_left 0 _

theorem assessSharpness_le_one (v : ℚ) : assessSharpness v ≤ 1 := by
  unfold assessSharpness
  split_ifs with h1 h2
  · norm_num
  · push_neg at h1
    linarith
  · push_neg at h1 h2
    exact max_le (by norm_num) (by linarith)

theorem assessSharpness_le_half (v : ℚ) (h : v ≤ 100) :
    assessSharpness v ≤ 1/2 := by
  unfold assessSharpness
  rw [if_neg (by linarith), if_neg (by linarith)]
  exact max_le (by norm_num) (by linarith)

theorem assessSharpness_mono (v w : ℚ) (hvw : v ≤ w) :
    assessSharpness v ≤ assessSharpness w := by
  by_cases hw1 : 500 < w
  · rw [show assessSharpness w = 1 by unfold assessSharpness; rw [if_pos hw1]]
    exact assessSharpness_le_one v
  · by_cases hw2 : 100 < w
    · rw [show assessSharpness w = 0.5 + 0.5 * (w - 100) / 400 by
        unfold assessSharpness; rw [if_neg hw1, if_pos hw2]]
      by_cases hv2 : 100 < v
      · rw [show assessSharpness v = 0.5 + 0.5 * (v - 100) / 400 by
          unfold assessSharpness; rw [if_neg (by linarith), if_pos hv2]]
        linarith
      · have h1 := assessSharpness_le_half v (by linarith)
        linarith
    · rw [show assessSharpness w = max 0 (w / 200) by
        unfold assessSharpness; rw [if_neg hw1, if_neg hw2]]
      rw [show assessSharpness v = max 0 (v / 200) by
        unfold assessSharpness; rw [if_neg (by linarith), if_neg (by linarith)]]
      exact max_le_max le_rfl (by linarith)

theorem faceSizeScore_nonneg (s : ℤ) : 0 ≤ faceSizeScore s := by
  unfold faceSizeScore
  split_ifs with h1 h2 h3
  · norm_num
  · have : (100 : ℚ) ≤ (s : ℚ) := by exact_mod_cast h2
    linarith
  · have : (50 : ℚ) ≤ (s : ℚ) := by exact_mod_cast h3
    linarith
  · exact le_max_left 0 _

theorem faceSizeScore_le_one (s : ℤ) : faceSizeScore s ≤ 1 := by
  unfold faceSizeScore
  split_ifs with h1 h2 h3
  · norm_num
  · have : (s : ℚ) < 200 := by exact_mod_cast not_le.mp h1
    linarith
  · have : (s : ℚ) < 100 := by exact_mod_cast not_le.mp h2
    linarith
  · have : (s : ℚ) < 50 := by exact_mod_cast not_le.mp h3
    exact max_le (by norm_num) (by linarith)

theorem faceSizeScore_le_half (s : ℤ) (h : s < 100) : faceSizeScore s ≤ 1/2 := by
  unfold faceSizeScore
  rw [if_neg (by omega), if_neg (by omega)]
  split_ifs with h3
  · have : (s : ℚ) < 100 := by exact_mod_cast h
    linarith
  · have : (s : ℚ) < 50 := by exact_mod_cast not_le.mp h3
    exact max_le (by norm_num) (by linarith)

theorem faceSizeScore_le_fifth (s : ℤ) (h : s < 50) : faceSizeScore s ≤ 1/5 := by
  unfold faceSizeScore
  rw [if_neg (by omega), if_neg (by omega), if_neg (by omega)]
  have : (s : ℚ) < 50 := by exact_mod_cast h
  exact max_le (by norm_num) (by linarith)

theorem faceSizeScore_mono (s t : ℤ) (hst : s ≤ t) :
    faceSizeScore s ≤ faceSizeScore t := by
  have hq : (s : ℚ) ≤ (t : ℚ) := by exact_mod_cast hst
  by_cases ht1 : 200 ≤ t
  · rw [show faceSizeScore t = 1 by unfold faceSizeScore; rw [if_pos ht1]]
    exact faceSizeScore_le_one s
  · by_cases ht2 : 100 ≤ t
    · rw [show faceSizeScore t = 0.5 + 0.5 * ((t : ℚ) - 100) / 100 by
        unfold faceSizeScore; rw [if_neg ht1, if_pos ht2]]
      by_cases hs2 : 100 ≤ s
      · rw [show faceSizeScore s = 0.5 + 0.5 * ((s : ℚ) - 100) / 100 by
          unfold faceSizeScore; rw [if_neg (by omega), if_pos hs2]]
        linarith
      · have h1 := faceSizeScore_le_half s (by omega)
        have : (100 : ℚ) ≤ (t : ℚ) := by exact_mod_cast ht2
        linarith
    · by_cases ht3 : 50 ≤ t
      · rw [show faceSizeScore t = 0.2 + 0.3 * ((t : ℚ) - 50) / 50 by
          unfold faceSizeScore; rw [if_neg ht1, if_neg ht2, if_pos ht3]]
        by_cases hs3 : 50 ≤ s
        · rw [show faceSizeScore s = 0.2 + 0.3 * ((s : ℚ) - 50) / 50 by
            unfold faceSizeScore;
              rw [if_neg (by omega), if_neg (by omega), if_pos hs3]]
          linarith
        · have h1 := faceSizeScore_le_fifth s (by omega)
          have : (50 : ℚ) ≤ (t : ℚ) := by exact_mod_cast ht3
          linarith
      · rw [show faceSizeScore t = max 0 ((t : ℚ) / 50 * 0.2) by
          unfold faceSizeScore; rw [if_neg ht1, if_neg ht2, if_neg ht3]]
        rw [show faceSizeScore s = max 0 ((s : ℚ) / 50 * 0.2) by
          unfold faceSizeScore;
            rw [if_neg (by omega), if_neg (by omega), if_neg (by omega)]]
        exact max_le_max le_rfl (by linarith)

theorem assessAngle_nonneg (lm : Landmarks) : 0 ≤ assessAngle lm := by
  unfold assessAngle dist2
  dsimp only
  split_ifs with h1
  · norm_num
  · positivity

theorem assessAngle_le_one (lm : Landmarks) : assessAngle lm ≤ 1 := by
  unfold assessAngle dist2
  dsimp only
  split_ifs with h1
  · norm_num
  · rw [div_le_one (by norm_num : (0:ℝ) < 2), show (2:ℝ) = 1 + 1 by norm_num]
    refine add_le_add (max_le (by norm_num) (sub_le_self 1 (by positivity)))
      (max_le (by norm_num) (sub_le_self 1 (by positivity)))

/-- Claim C6.  Every quality assessment satisfies
`overall = 0.20·brightness + 0.30·sharpness + 0.25·face_size +
0.25·face_angle` with every component in `[0, 1]`; a clamped crop under 2
pixels on a side yields all five scores exactly 0. -/
theorem C6_quality_overall (W H x1 y1 x2 y2 : ℤ) (mu lap : ℚ)
    (lm : Landmarks) :
    (min H y2 - max 0 y1 < 2 ∨ min W x2 - max 0 x1 < 2 →
      assess W H x1 y1 x2 y2 mu lap lm = ⟨0, 0, 0, 0, 0⟩) ∧
    (assess W H x1 y1 x2 y2 mu lap lm).overall =
      (assess W H x1 y1 x2 y2 mu lap lm).brightness * 0.20 +
      (assess W H x1 y1 x2 y2 mu lap lm).sharpness * 0.30 +
      (assess W H x1 y1 x2 y2 mu lap lm).face_size * 0.25 +
      (assess W H x1 y1 x2 y2 mu lap lm).face_angle * 0.25 ∧
    (0 ≤ (assess W H x1 y1 x2 y2 mu lap lm).brightness ∧
      (assess W H x1 y1 x2 y2 mu lap lm).brightness ≤ 1) ∧
    (0 ≤ (assess W H x1 y1 x2 y2 mu lap lm).sharpness ∧
      (assess W H x1 y1 x2 y2 mu lap lm).sharpness ≤ 1) ∧
    (0 ≤ (assess W H x1 y1 x2 y2 mu lap lm).face_size ∧
      (assess W H x1 y1 x2 y2 mu lap lm).face_size ≤ 1) ∧
    (0 ≤ (assess W H x1 y1 x2 y2 mu lap lm).face_angle ∧
      (assess W H x1 y1 x2 y2 mu lap lm).face_angle ≤ 1) ∧
    (0 ≤ (assess W H x1 y1 x2 y2 mu lap lm).overall ∧
      (assess W H x1 y1 x2 y2 mu lap lm).overall ≤ 1) := by
  unfold assess
  dsimp only
  split_ifs with hdeg
  · refine ⟨fun _ => rfl, by norm_num, by norm_num, by norm_num, by norm_num,
      by norm_num, by norm_num⟩
  · have hb0 : (0 : ℝ) ≤ ((assessBrightness mu : ℚ) : ℝ) := by
      exact_mod_cast assessBrightness_nonneg mu
    have hb1 : ((assessBrightness mu : ℚ) : ℝ) ≤ 1 := by
      exact_mod_cast assessBrightness_le_one mu
    have hs0 : (0 : ℝ) ≤ ((assessSharpness lap : ℚ) : ℝ) := by
      exact_mod_cast assessSharpness_nonneg lap
    have hs1 : ((assessSharpness lap : ℚ) : ℝ) ≤ 1 := by
      exact_mod_cast assessSharpness_le_one lap
    have hf0 : (0 : ℝ) ≤ ((assessSize x1 y1 x2 y2 : ℚ) : ℝ) := by
      exact_mod_cast faceSizeScore_nonneg (min (x2 - x1) (y2 - y1))
    have hf1 : ((assessSize x1 y1 x2 y2 : ℚ) : ℝ) ≤ 1 := by
      exact_mod_cast faceSizeScore_le_one (min (x2 - x1) (y2 - y1))
    have ha0 := assessAngle_nonneg lm
    have ha1 := assessAngle_le_one lm
    refine ⟨fun h => absurd h hdeg, by norm_num, ⟨hb0, hb1⟩, ⟨hs0, hs1⟩,
      ⟨hf0, hf1⟩, ⟨ha0, ha1⟩, ⟨by nlinarith, by nlinarith⟩⟩

theorem C6_quality_overall_witness :
    assess 640 640 0 0 1 1 130 600
        ⟨(0, 0), (0, 0), (0, 0), (0, 0), (0, 0)⟩ = ⟨0, 0, 0, 0, 0⟩ ∧
    (0 : ℝ) ≤ (assess 640 640 0 0 1 1 130 600
        ⟨(0, 0), (0, 0), (0, 0), (0, 0), (0, 0)⟩).brightness :=
  ⟨(C6_quality_overall 640 640 0 0 1 1 130 600
      ⟨(0, 0), (0, 0), (0, 0), (0, 0), (0, 0)⟩).1 (by norm_num),
   (C6_quality_overall 640 640 0 0 1 1 130 600
      ⟨(0, 0), (0, 0), (0, 0), (0, 0), (0, 0)⟩).2.2.1.1⟩

/-- Claim C7.  The face-size score is nondecreasing in `min(bbox_w, bbox_h)`
(globally, hence in particular up to and beyond 200 px), and the sharpness
score is nondecreasing in the Laplacian variance over the range 50 to 600,
across all piecewise branches and breakpoints. -/
theorem C7_quality_monotone :
    (∀ s t : ℤ, s ≤ t → faceSizeScore s ≤ faceSizeScore t) ∧
    (∀ v w : ℚ, 50 ≤ v → v ≤ w → w ≤ 600 →
      assessSharpness v ≤ assessSharpness w) :=
  ⟨faceSizeScore_mono, fun v w _ hvw _ => assessSharpness_mono v w hvw⟩

theorem C7_quality_monotone_witness :
    faceSizeScore 120 ≤ faceSizeScore 220 ∧
    assessSharpness 50 ≤ assessSharpness 600 :=
  ⟨C7_quality_monotone.1 120 220 (by norm_num),
   C7_quality_monotone.2 50 600 (by norm_num) (by norm_num) (by norm_num)⟩

/-! ## Theorems: liveness classification -/

/-- Claim C8.  With both frames detected: `motion < 0.001` gives
`(false, 0.2, Static)`; `motion > 0.15` gives `(false, 0.3, Excessive)`;
otherwise `is_live` holds exactly when `min(movement_score +
min(10·eye_motion, 0.3), 1) ≥ 0.7`. -/
theorem C8_liveness_classification (movement eyeMovement : ℚ) :
    (movement < 0.001 →
      classifyLiveness movement eyeMovement =
        ⟨false, 0.2, "No movement detected - possible photo attack"⟩) ∧
    (¬ movement < 0.001 → 0.15 < movement →
      classifyLiveness movement eyeMovement =
        ⟨false, 0.3, "Excessive movement - please hold still"⟩) ∧
    (¬ movement < 0.001 → ¬ 0.15 < movement →
      ((classifyLiveness movement eyeMovement).is_live = true ↔
        0.7 ≤ min (movementScore movement + min (eyeMovement * 10) 0.3) 1)) := by
  refine ⟨?_, ?_, ?_⟩
  · intro h
    rw [classifyLiveness, if_pos h]
  · intro h1 h2
    rw [classifyLiveness, if_neg h1, if_pos h2]
  · intro h1 h2
    rw [classifyLiveness, if_neg h1, if_neg h2]
    dsimp only
    unfold calcConfidence
    split_ifs with h3 h4 <;> simp [h3]

theorem C8_liveness_classification_witness :
    classifyLiveness 0.0005 0 =
      ⟨false, 0.2, "No movement detected - possible photo attack"⟩ ∧
    classifyLiveness 0.2 0 =
      ⟨false, 0.3, "Excessive movement - please hold still"⟩ ∧
    ((classifyLiveness 0.03 0.04).is_live = true ↔
      0.7 ≤ min (movementScore 0.03 + min ((0.04 : ℚ) * 10) 0.3) 1) :=
  ⟨(C8_liveness_classification 0.0005 0).1 (by norm_num),
   (C8_liveness_classification 0.2 0).2.1 (by norm_num) (by norm_num),
   (C8_liveness_classification 0.03 0.04).2.2 (by norm_num) (by norm_num)⟩

/-! ## Theorems: embedder normalization -/

/-- A 512-vector with a single nonzero coordinate, for concrete norms. -/
noncomputable def unitVec (c : ℝ) : Fin 512 → ℝ := fun i => if i = 0 then c else 0

theorem l2norm_unitVec (c : ℝ) (hc : 0 ≤ c) : l2norm (unitVec c) = c := by
  unfold l2norm unitVec
  have hsum : ∑ i : Fin 512, (if i = 0 then c else 0) ^ 2 = c ^ 2 := by
    have h : ∀ i : Fin 512, (if i = 0 then c else 0) ^ 2 =
        if i = 0 then c ^ 2 else 0 := by
      intro i
      split_ifs <;> ring
    simp [h]
  rw [hsum, Real.sqrt_sq hc]

theorem sumsq_nonneg (v : Fin 512 → ℝ) : 0 ≤ ∑ i, v i ^ 2 :=
  Finset.sum_nonneg fun i _ => sq_nonneg (v i)

/-- Dividing a vector of positive norm by its norm yields a unit vector. -/
theorem l2norm_div_self (raw : Fin 512 → ℝ) (h : 0 < l2norm raw) :
    l2norm (fun i => raw i / l2norm raw) = 1 := by
  have hS : 0 ≤ ∑ i, raw i ^ 2 := sumsq_nonneg raw
  have hsum : ∑ i, (raw i / l2norm raw) ^ 2 =
      (∑ i, raw i ^ 2) / l2norm raw ^ 2 := by
    rw [Finset.sum_div]
    exact Finset.sum_congr rfl fun i _ => div_pow (raw i) (l2norm raw) 2
  show Real.sqrt (∑ i, (raw i / l2norm raw) ^ 2) = 1
  rw [hsum, Real.sqrt_div hS, Real.sqrt_sq (le_of_lt h)]
  rw [show Real.sqrt (∑ i, raw i ^ 2) = l2norm raw from rfl]
  exact div_self (ne_of_gt h)

/-- A vector of zero norm is the zero vector. -/
theorem l2norm_eq_zero_vec (raw : Fin 512 → ℝ) (h : l2norm raw = 0) :
    raw = fun _ => 0 := by
  have hS : 0 ≤ ∑ i, raw i ^ 2 := sumsq_nonneg raw
  have hsum : ∑ i, raw i ^ 2 = 0 := by
    have := Real.sqrt_eq_zero hS |>.mp h
    exact this
  funext i
  have hall := (Finset.sum_eq_zero_iff_of_nonneg
    (fun j _ => sq_nonneg (raw j))).mp hsum i (Finset.mem_univ i)
  exact pow_eq_zero_iff (by norm_num) |>.mp hall

/-- Counterexample to the claimed `norm < 1e-10 → left as zero` rule: a raw
output of norm `1e-20` is strictly below `1e-10`, yet `generate` (whose
guard is `norm > 0`) normalizes it to a unit vector rather than leaving a
zero vector, and the batch rule (divide by `max(norm, 1e-10)`) yields a
vector of norm `1e-10`, neither zero nor unit. -/
theorem C1_norm_guard_counterexample :
    l2norm (unitVec (1 / 10 ^ 20)) < 1 / 10 ^ 10 ∧
    generate (unitVec (1 / 10 ^ 20)) ≠ (fun _ => 0) ∧
    l2norm (batchNormalizeRow (unitVec (1 / 10 ^ 20))) ≠ 1 ∧
    batchNormalizeRow (unitVec (1 / 10 ^ 20)) ≠ (fun _ => 0) := by
  have hn : l2norm (unitVec (1 / 10 ^ 20)) = 1 / 10 ^ 20 :=
    l2norm_unitVec _ (by norm_num)
  have hpos : 0 < l2norm (unitVec (1 / 10 ^ 20)) := by rw [hn]; norm_num
  have hmax : max (l2norm (unitVec (1 / 10 ^ 20))) (1 / 10 ^ 10) =
      1 / 10 ^ 10 := by
    rw [hn]
    exact max_eq_right (by norm_num)
  have hbatch : batchNormalizeRow (unitVec (1 / 10 ^ 20)) =
      unitVec (1 / 10 ^ 10) := by
    funext i
    simp only [batchNormalizeRow, hmax]
    unfold unitVec
    split_ifs
    · norm_num
    · exact zero_div _
  refine ⟨by rw [hn]; norm_num, ?_, ?_, ?_⟩
  · intro heq
    have hg : generate (unitVec (1 / 10 ^ 20)) =
        fun i => unitVec (1 / 10 ^ 20) i / l2norm (unitVec (1 / 10 ^ 20)) := by
      rw [generate, if_pos hpos]
    have h0 := congrFun heq 0
    rw [hg, hn] at h0
    simp only [unitVec] at h0
    norm_num at h0
  · rw [hbatch, l2norm_unitVec _ (by norm_num)]
    norm_num
  · intro heq
    rw [hbatch] at heq
    have h0 := congrFun heq 0
    simp only [unitVec, if_pos rfl] at h0
    norm_num at h0

/-- Claim C1 (amended guard).  `generate` divides by the norm whenever the
norm is positive — the result then has norm exactly 1 (hence within `1e-5`
of 1) — and leaves the vector unchanged exactly when the norm is 0, which
happens only for the all-zero raw output (the failure signal).
`generate_batch` normalizes each row independently by `max(norm, 1e-10)`:
rows of norm at least `1e-10` come out unit, zero rows stay zero. -/
theorem C1_embedding_normalization :
    (∀ raw : Fin 512 → ℝ, 0 < l2norm raw →
      generate raw = (fun i => raw i / l2norm raw) ∧
        l2norm (generate raw) = 1) ∧
    (∀ raw : Fin 512 → ℝ, l2norm raw = 0 →
      generate raw = raw ∧ raw = fun _ => 0) ∧
    (∀ raw : Fin 512 → ℝ, 1 / 10 ^ 10 ≤ l2norm raw →
      l2norm (batchNormalizeRow raw) = 1) ∧
    (∀ rows : List (Fin 512 → ℝ), generateBatch rows =
      rows.map batchNormalizeRow) ∧
    batchNormalizeRow (fun _ => 0) = (fun _ => 0) := by
  refine ⟨?_, ?_, ?_, fun rows => rfl, ?_⟩
  · intro raw h
    have hgen : generate raw = fun i => raw i / l2norm raw := by
      rw [generate, if_pos h]
    exact ⟨hgen, by rw [hgen]; exact l2norm_div_self raw h⟩
  · intro raw h
    refine ⟨?_, l2norm_eq_zero_vec raw h⟩
    rw [generate, if_neg (by rw [h]; exact lt_irrefl 0)]
  · intro raw h
    have hpos : 0 < l2norm raw := lt_of_lt_of_le (by norm_num) h
    have hmax : max (l2norm raw) (1 / 10 ^ 10) = l2norm raw := max_eq_left h
    have hrow : batchNormalizeRow raw = fun i => raw i / l2norm raw := by
      funext i
      simp only [batchNormalizeRow, hmax]
    rw [hrow]
    exact l2norm_div_self raw hpos
  · funext i
    simp only [batchNormalizeRow]
    exact zero_div _

theorem C1_embedding_normalization_witness :
    l2norm (generate (unitVec 2)) = 1 ∧
    l2norm (batchNormalizeRow (unitVec 2)) = 1 ∧
    generate (unitVec 0) = unitVec 0 := by
  have h2 : l2norm (unitVec 2) = 2 := l2norm_unitVec 2 (by norm_num)
  have h0 : l2norm (unitVec 0) = 0 := l2norm_unitVec 0 le_rfl
  exact ⟨(C1_embedding_normalization.1 (unitVec 2) (by rw [h2]; norm_num)).2,
    C1_embedding_normalization.2.2.1 (unitVec 2) (by rw [h2]; norm_num),
    (C1_embedding_normalization.2.1 (unitVec 0) h0).1⟩

/-! ## Theorems: attendance -/

/-- The computed check-in status is never the not-in-gallery marker. -/
theorem calculate_status_ne_unknown (c : Option (ℕ × ℕ)) (l : ℤ)
    (t : Timestamp) : calculate_check_in_status c l t ≠ "unknown_user" := by
  unfold calculate_check_in_status
  dsimp only
  split_ifs <;> decide

theorem calculate_status_cases (c : Option (ℕ × ℕ)) (l : ℤ) (t : Timestamp) :
    calculate_check_in_status c l t = "on_time" ∨
      calculate_check_in_status c l t = "late" := by
  unfold calculate_check_in_status
  dsimp only
  split_ifs
  · exact Or.inl rfl
  · exact Or.inr rfl
  · exact Or.inr rfl

/-- Claim C9.  For a matched, non-duplicate check-in the inserted status is
`on_time` exactly when the check time is at or before the `check_in_end`
deadline, otherwise `late` — for every value of `late_threshold_minutes`
(both branches of the `elif` produce `late`). -/
theorem C9_check_in_status (checkInEnd : Option (ℕ × ℕ))
    (lateThresholdMinutes : ℤ) (check : Timestamp) :
    (calculate_check_in_status checkInEnd lateThresholdMinutes check =
        "on_time" ↔
      (check.usec : ℤ) ≤
        ((checkInEnd.getD (9, 30)).1 * 60 + (checkInEnd.getD (9, 30)).2) *
          60 * 1000000) ∧
    (¬ (check.usec : ℤ) ≤
        ((checkInEnd.getD (9, 30)).1 * 60 + (checkInEnd.getD (9, 30)).2) *
          60 * 1000000 →
      calculate_check_in_status checkInEnd lateThresholdMinutes check =
        "late") := by
  unfold calculate_check_in_status
  dsimp only
  constructor
  · split_ifs with h1 h2
    · simp only [true_iff]
      exact_mod_cast h1
    · simp only [iff_false_intro (by decide : ("late" : String) ≠ "on_time"),
        false_iff]
      exact_mod_cast h1
    · simp only [iff_false_intro (by decide : ("late" : String) ≠ "on_time"),
        false_iff]
      exact_mod_cast h1
  · intro h
    rw [if_neg (by exact_mod_cast h)]
    split_ifs <;> rfl

theorem C9_check_in_status_witness :
    (calculate_check_in_status (some (9, 30)) 15 ⟨5, 34200000000⟩ = "on_time" ↔
      (34200000000 : ℤ) ≤ (9 * 60 + 30) * 60 * 1000000) ∧
    calculate_check_in_status (some (9, 30)) 1000000 ⟨5, 34200000001⟩ =
      "late" :=
  ⟨(C9_check_in_status (some (9, 30)) 15 ⟨5, 34200000000⟩).1,
   (C9_check_in_status (some (9, 30)) 1000000 ⟨5, 34200000001⟩).2
     (by norm_num)⟩

/-- For rows already in the table, the endpoint's dedup query predicate
agrees with the daily invariant predicate at `d = now.day`, provided no row
carries a future timestamp. -/
theorem matchesDedup_iff_dailyPred (uid : ℕ) (now : Timestamp)
    (r : AttendanceRow) (hle : r.ts.day ≤ now.day) :
    matchesDedup uid now r ↔ dailyPred uid now.day r := by
  unfold matchesDedup dailyPred tsLe todayStart
  dsimp only
  constructor
  · rintro ⟨h1, h2, h3, h4⟩
    refine ⟨h1, h2, h4, ?_⟩
    rcases h3 with h3 | ⟨h3, _⟩
    · omega
    · omega
  · rintro ⟨h1, h2, h3, h4⟩
    exact ⟨h1, h2, Or.inr ⟨h4.symm, Nat.zero_le _⟩, h3⟩

/-- A row in today's range always satisfies the dedup query predicate. -/
theorem dailyPred_imp_matchesDedup (uid : ℕ) (now : Timestamp)
    (r : AttendanceRow) (h : dailyPred uid now.day r) :
    matchesDedup uid now r := by
  rcases h with ⟨h1, h2, h3, h4⟩
  exact ⟨h1, h2, Or.inr ⟨h4.symm, Nat.zero_le _⟩, h3⟩

theorem dailyCount_append_single (db : List AttendanceRow)
    (r : AttendanceRow) (u d : ℕ) :
    dailyCount (db ++ [r]) u d =
      dailyCount db u d + if dailyPred u d r then 1 else 0 := by
  unfold dailyCount
  rw [List.countP_append]
  congr 1
  simp [List.countP_cons]

/-- Claim C2.  First part: a matched check-in is rejected with
`already_checked_in` and writes nothing when a prior row with the same user,
type `check_in`, today's date, and status other than `unknown_user` exists
(assuming the table satisfies the daily invariant and holds no
future-stamped rows, so the endpoint's `scalar_one_or_none` sees exactly one
row).  Second part: every `check_in` step preserves the invariant that each
user has at most one such row per day. -/
theorem C2_daily_dedup :
    (∀ (db : List AttendanceRow) (uid : ℕ) (score : ℚ)
        (cfg : Option (ℕ × ℕ)) (lateThr : ℤ) (now : Timestamp),
      (∀ u d, dailyCount db u d ≤ 1) →
      (∀ r ∈ db, r.ts.day ≤ now.day) →
      (∃ r ∈ db, dailyPred uid now.day r) →
      check_in db (some (uid, score)) cfg lateThr now =
        (db, "already_checked_in")) ∧
    (∀ (db : List AttendanceRow) (mres : Option (ℕ × ℚ))
        (cfg : Option (ℕ × ℕ)) (lateThr : ℤ) (now : Timestamp),
      (∀ u d, dailyCount db u d ≤ 1) →
      ∀ u d, dailyCount (check_in db mres cfg lateThr now).1 u d ≤ 1) := by
  constructor
  · intro db uid score cfg lateThr now hInv hNF hEx
    have hcong : ∀ r ∈ db,
        decide (matchesDedup uid now r) = true ↔
          decide (dailyPred uid now.day r) = true := by
      intro r hr
      simp only [decide_eq_true_eq]
      exact matchesDedup_iff_dailyPred uid now r (hNF r hr)
    have hlen : (db.filter fun r => decide (matchesDedup uid now r)).length =
        dailyCount db uid now.day := by
      rw [← List.countP_eq_length_filter]
      exact List.countP_congr hcong
    have hpos : 0 < dailyCount db uid now.day := by
      rcases hEx with ⟨r, hr, hpred⟩
      exact List.countP_pos_iff.mpr ⟨r, hr, decide_eq_true hpred⟩
    have hone : dailyCount db uid now.day = 1 :=
      le_antisymm (hInv _ _) hpos
    obtain ⟨r1, hr1⟩ := List.length_eq_one.mp (hlen.trans hone)
    simp only [check_in]
    rw [hr1]
  · intro db mres cfg lateThr now hInv u d
    cases mres with
    | none =>
      simp only [check_in]
      rw [dailyCount_append_single]
      have : ¬ dailyPred u d ⟨none, "check_in", "unknown_user", now⟩ := by
        intro h
        exact absurd h.1 (by simp)
      rw [if_neg this]
      simpa using hInv u d
    | some pair =>
      obtain ⟨uid, score⟩ := pair
      simp only [check_in]
      cases hfl : db.filter fun r => decide (matchesDedup uid now r) with
      | nil =>
        have hzero : dailyCount db uid now.day = 0 := by
          unfold dailyCount
          rw [List.countP_eq_zero]
          intro r hr
          simp only [decide_eq_true_eq]
          intro hpred
          have := List.filter_eq_nil_iff.mp hfl r hr
          exact this (decide_eq_true (dailyPred_imp_matchesDedup uid now r hpred))
        rw [dailyCount_append_single]
        by_cases hu : u = uid
        · by_cases hd : d = now.day
          · subst hu; subst hd
            rw [hzero]
            split_ifs <;> norm_num
          · have : ¬ dailyPred u d ⟨some uid, "check_in",
                calculate_check_in_status cfg lateThr now, now⟩ := by
              intro h
              exact hd h.2.2.2.symm
            rw [if_neg this]
            simpa using hInv u d
        · have : ¬ dailyPred u d ⟨some uid, "check_in",
              calculate_check_in_status cfg lateThr now, now⟩ := by
            intro h
            have := h.1
            simp only [Option.some.injEq] at this
            exact hu this.symm
          rw [if_neg this]
          simpa using hInv u d
      | cons head tail =>
        cases tail with
        | nil => exact hInv u d
        | cons h2 t2 => exact hInv u d

theorem C2_daily_dedup_witness :
    check_in [⟨some 7, "check_in", "on_time", ⟨5, 100⟩⟩] (some (7, 1)) none 15
        ⟨5, 200⟩ =
      ([⟨some 7, "check_in", "on_time", ⟨5, 100⟩⟩], "already_checked_in") ∧
    dailyCount (check_in [⟨some 7, "check_in", "on_time", ⟨5, 100⟩⟩]
        (some (7, 1)) none 15 ⟨5, 200⟩).1 7 5 ≤ 1 := by
  have hInv : ∀ u d,
      dailyCount [⟨some 7, "check_in", "on_time", ⟨5, 100⟩⟩] u d ≤ 1 :=
    fun u d => le_trans (List.countP_le_length _) (by norm_num)
  refine ⟨?_, ?_⟩
  · refine C2_daily_dedup.1 _ 7 1 none 15 ⟨5, 200⟩ hInv ?_ ?_
    · intro r hr
      rcases List.mem_singleton.mp hr with rfl
      exact le_refl 5
    · exact ⟨⟨some 7, "check_in", "on_time", ⟨5, 100⟩⟩, List.mem_singleton.mpr rfl,
        rfl, rfl, by decide, rfl⟩
  · exact C2_daily_dedup.2 _ (some (7, 1)) none 15 ⟨5, 200⟩ hInv 7 5

/-- Claim C10.  The service-layer coordinator inserts rows only with
statuses `failed`, `unknown` or `success` (never `unknown_user`), and the
fully successful path inserts unconditionally — no prior-check-in query —
so two successful `process_check_in` calls for the same user on the same
day append two `success` rows, driving the daily count up by two. -/
theorem C10_service_no_dedup :
    (∀ (db : List AttendanceRow) (action : String) (isLive : Bool)
        (emb : List ℚ) (mres : Option (ℕ × ℚ)) (now : Timestamp),
      ∀ r ∈ (process_attendance db action isLive emb mres now).1,
        r ∈ db ∨ r.status = "failed" ∨ r.status = "unknown" ∨
          r.status = "success") ∧
    (∀ (db : List AttendanceRow) (uid : ℕ) (score : ℚ) (emb : List ℚ)
        (now : Timestamp), emb ≠ [] →
      (process_check_in db true emb (some (uid, score)) now).2 = "success" ∧
      (process_check_in
          (process_check_in db true emb (some (uid, score)) now).1
          true emb (some (uid, score)) now).1 =
        db ++ [⟨some uid, "check_in", "success", now⟩,
               ⟨some uid, "check_in", "success", now⟩] ∧
      dailyCount (process_check_in
          (process_check_in db true emb (some (uid, score)) now).1
          true emb (some (uid, score)) now).1 uid now.day =
        dailyCount db uid now.day + 2) := by
  constructor
  · intro db action isLive emb mres now r hr
    unfold process_attendance at hr
    split_ifs at hr with h1 h2
    · rcases List.mem_append.mp hr with h | h
      · exact Or.inl h
      · rcases List.mem_singleton.mp h with rfl
        exact Or.inr (Or.inl rfl)
    · rcases List.mem_append.mp hr with h | h
      · exact Or.inl h
      · rcases List.mem_singleton.mp h with rfl
        exact Or.inr (Or.inl rfl)
    · cases mres with
      | none =>
        rcases List.mem_append.mp hr with h | h
        · exact Or.inl h
        · rcases List.mem_singleton.mp h with rfl
          exact Or.inr (Or.inr (Or.inl rfl))
      | some pair =>
        obtain ⟨uid, score⟩ := pair
        rcases List.mem_append.mp hr with h | h
        · exact Or.inl h
        · rcases List.mem_singleton.mp h with rfl
          exact Or.inr (Or.inr (Or.inr rfl))
  · intro db uid score emb now hemb
    have hne : emb.isEmpty = false := by
      cases emb with
      | nil => exact absurd rfl hemb
      | cons a l => rfl
    have hstep : ∀ db' : List AttendanceRow,
        process_check_in db' true emb (some (uid, score)) now =
          (db' ++ [⟨some uid, "check_in", "success", now⟩], "success") := by
      intro db'
      unfold process_check_in process_attendance
      rw [hne]
      rfl
    have hs : ("success" : String) ≠ "unknown_user" := by decide
    have hpred : dailyPred uid now.day
        ⟨some uid, "check_in", "success", now⟩ := ⟨rfl, rfl, hs, rfl⟩
    refine ⟨by rw [hstep db], ?_, ?_⟩
    · rw [hstep db]
      dsimp only
      rw [hstep]
      simp
    · rw [hstep db]
      dsimp only
      rw [hstep]
      dsimp only
      rw [List.append_assoc]
      rw [show [(⟨some uid, "check_in", "success", now⟩ : AttendanceRow)] ++
          [⟨some uid, "check_in", "success", now⟩] =
          [(⟨some uid, "check_in", "success", now⟩ : AttendanceRow),
           ⟨some uid, "check_in", "success", now⟩] from rfl]
      unfold dailyCount
      rw [List.countP_append]
      have : List.countP (fun r => decide (dailyPred uid now.day r))
          [(⟨some uid, "check_in", "success", now⟩ : AttendanceRow),
           ⟨some uid, "check_in", "success", now⟩] = 2 := by
        simp [List.countP_cons, decide_eq_true hpred]
      omega

theorem C10_service_no_dedup_witness :
    (process_check_in [] true [1] (some (7, 1)) ⟨5, 100⟩).2 = "success" ∧
    dailyCount (process_check_in
        (process_check_in [] true [1] (some (7, 1)) ⟨5, 100⟩).1
        true [1] (some (7, 1)) ⟨5, 100⟩).1 7 5 =
      dailyCount [] 7 5 + 2 := by
  have h := C10_service_no_dedup.2 [] 7 1 [1] ⟨5, 100⟩ (List.cons_ne_nil 1 [])
  exact ⟨h.1, h.2.2⟩

end FaceLogix
